import Mathlib

/-!
# Feishu collection plugin: `Execute` and the window tasks it submits

A shallow embedding of `plugins/feishu/feishu.go`.  `Execute` is a function from the
behaviour of its collaborators (a `World`) and the options map to the sequence of effects
it performs and its outcome.  Each closure handed to `scheduler.Submit` is a `Task` value
holding the variables the closure captures; `Task.run` is the closure body.

Conventions of the embedding:

* instants are integers counting nanoseconds since the Unix epoch; the finite range of
  `time.Time` and of `int64` is not modelled; every `Time` of `Execute` comes from
  `time.Now()` and so is in the location `time.Local`, which the `World` holds;
* `float32` values are the rationals they denote, every operation rounds its exact result
  to nearest, ties to even, with 24 bits; overflow to infinity is not modelled (every
  value computed here is at most `2 ^ 63`);
* packages that are not part of the source file (`core`, `utils`, `logger`, the feishu
  client, the database) appear as fields of `World` or as definitions modelled from the
  specification, each marked as such.
-/

namespace Feishu

/-! ## Errors -/

/-- A Go `error` value: the name of its dynamic type and the text `Error()` returns. -/
structure GoError where
  typeName : String
  text : String
deriving DecidableEq

/-- The function `fmt.Errorf(format, args...)` for a format string that holds no verb, which is the
case at both call sites (a literal, and a literal around a decimal number).  With no
verb to consume them, the operands are reported after the text as `%!(EXTRA type=value)`.
No `%w` verb is present, so the result is a fresh `*errors.errorString`. -/
def fmtErrorf (format : String) (args : List GoError) : GoError :=
  { typeName := "*errors.errorString"
    text :=
      match args with
      | [] => format
      | _ => format ++ "%!(EXTRA " ++
          ", ".intercalate (args.map fun a => a.typeName ++ "=" ++ a.text) ++ ")" }

/-! ## Options -/

/-- The dynamic values an `interface{}` of the options map can hold. -/
inductive Value
  | float64 (x : ℚ)
  | int (n : Int)
  | string (s : String)
  | bool (b : Bool)
  | nil
deriving DecidableEq

/-- The name of the dynamic type of a value, as a failed type assertion prints it. -/
def Value.typeName : Value → String
  | .float64 _ => "float64"
  | .int _ => "int"
  | .string _ => "string"
  | .bool _ => "bool"
  | .nil => "nil"

/-- The type `map[string]interface{}`: a key is absent (`none`) or bound to a value. -/
abbrev Options := String → Option Value

/-- The conversion `int(x)` of a `float64`: the fraction is discarded.  Values outside the
range of `int`, where the result depends on the implementation, are not modelled. -/
def intOfFloat64 (x : ℚ) : Int := Int.tdiv x.num x.den

/-! ## `time` -/

/-- An instant, in nanoseconds since the Unix epoch. -/
structure Time where
  unixNano : Int
deriving DecidableEq

/-- The constant `time.Hour`, a `Duration` in nanoseconds. -/
def Hour : Int := 3600 * 1000000000

/-- Seconds from the zero `Time` (January 1, year 1, UTC) to the Unix epoch. -/
def unixToInternal : Int := 62135596800

/-- The method `t.Truncate(d)`: round `t` down to a multiple of `d` since the zero time; `t` itself
when `d <= 0`. -/
def Time.Truncate (t : Time) (d : Int) : Time :=
  if d ≤ 0 then t
  else ⟨t.unixNano - (t.unixNano + unixToInternal * 1000000000) % d⟩

/-- A zone of a location: its offset east of UTC in seconds, in effect for the Unix
seconds from `start` up to, not including, `stop`. -/
structure Zone where
  offset : Int
  start : Int
  stop : Int
deriving DecidableEq

/-- A `*time.Location`, given by its method `lookup(sec)`: the zone in effect at a Unix
second. -/
structure Location where
  lookup : Int → Zone

/-- The location `time.UTC`: offset 0 at every instant. -/
def UTC : Location := ⟨fun _ => ⟨0, -9223372036854775808, 9223372036854775807⟩⟩

/-- The method `t.AddDate(0, 0, days)` for a `t` in the location `loc`.  It reads the
wall clock of `t` (`t.Date()`, `t.Clock()`: the Unix second plus the offset in effect),
moves the day field by `days`, which moves the wall-clock seconds by 86400 per day, and
converts back as `time.Date` does: with the offset in effect at the wall-clock value read
as UTC, looked up again at the adjusted instant when that falls outside the zone found.
The nanoseconds within the second are kept. -/
def Time.AddDate (t : Time) (loc : Location) (days : Int) : Time :=
  let sec := t.unixNano / 1000000000
  let nsec := t.unixNano % 1000000000
  let unix := sec + (loc.lookup sec).offset + days * 86400
  let zone := loc.lookup unix
  let offset :=
    if zone.offset ≠ 0 then
      if unix - zone.offset < zone.start ∨ unix - zone.offset ≥ zone.stop then
        (loc.lookup (unix - zone.offset)).offset
      else zone.offset
    else zone.offset
  ⟨(unix - offset) * 1000000000 + nsec⟩

/-- The method `t.Unix()`: whole seconds since the Unix epoch. -/
def Time.Unix (t : Time) : Int := t.unixNano / 1000000000

/-- The function `strconv.FormatInt(n, 10)`. -/
def FormatInt (n : Int) : String := toString n

/-! ## `net/url` -/

/-- The type `url.Values`, a `map[string][]string`, as an association list. -/
structure Values where
  entries : List (String × List String)
deriving DecidableEq

/-- Append `value` to the values of `key` in an association list. -/
def addEntry : List (String × List String) → String → String → List (String × List String)
  | [], key, value => [(key, [value])]
  | (k, vs) :: rest, key, value =>
    if k = key then (k, vs ++ [value]) :: rest
    else (k, vs) :: addEntry rest key value

/-- The first value of `key` in an association list, or the empty string. -/
def getEntry : List (String × List String) → String → String
  | [], _ => ""
  | (k, vs) :: rest, key => if k = key then vs.headD "" else getEntry rest key

/-- The method `v.Add(key, value)`: append `value` to the values of `key`. -/
def Values.Add (v : Values) (key value : String) : Values := ⟨addEntry v.entries key value⟩

/-- The method `v.Get(key)`: the first value of `key`, or the empty string. -/
def Values.Get (v : Values) (key : String) : String := getEntry v.entries key

/-- The bytes `url.QueryEscape` leaves as they are. -/
def unreserved (b : UInt8) : Bool :=
  (48 ≤ b && b ≤ 57) || (65 ≤ b && b ≤ 90) || (97 ≤ b && b ≤ 122) ||
    b == 45 || b == 95 || b == 46 || b == 126

/-- One upper-case hexadecimal digit. -/
def hexDigit (n : Nat) : Char := "0123456789ABCDEF".toList.getD n '0'

/-- The function `url.QueryEscape(s)`. -/
def QueryEscape (s : String) : String :=
  String.join (s.toUTF8.toList.map fun b =>
    if unreserved b then String.singleton (Char.ofNat b.toNat)
    else if b == 32 then "+"
    else String.mk ['%', hexDigit (b.toNat / 16), hexDigit (b.toNat % 16)])

/-- The method `v.Encode()`: `key=value` pairs joined by `&`, keys in sorted order. -/
def Values.Encode (v : Values) : String :=
  "&".intercalate
    ((v.entries.mergeSort fun a b => decide (a.1 ≤ b.1)).flatMap fun kv =>
      kv.2.map fun value => QueryEscape kv.1 ++ "=" ++ QueryEscape value)

/-! ## `float32` -/

/-- A finite `float32`, as the rational number it denotes. -/
abbrev F32 := ℚ

/-- Round to the nearest integer, ties to the even one. -/
def roundHalfEven (x : ℚ) : ℤ :=
  if x - ⌊x⌋ < 1 / 2 then ⌊x⌋
  else if 1 / 2 < x - ⌊x⌋ then ⌊x⌋ + 1
  else if ⌊x⌋ % 2 = 0 then ⌊x⌋
  else ⌊x⌋ + 1

/-- The spacing of `float32` values around `q`: `2 ^ (e - 23)` for `2 ^ e <= |q| < 2 ^ (e + 1)`,
and the spacing of the subnormal range below `2 ^ (-126)`. -/
def ulp32 (q : ℚ) : ℚ := (2 : ℚ) ^ (max (Int.log 2 |q|) (-126) - 23)

/-- Round a real result to `float32` (round to nearest, ties to even). -/
def round32 (q : ℚ) : F32 := roundHalfEven (q / ulp32 q) * ulp32 q

/-- The conversion `float32(i)` of an `int`. -/
def F32.ofInt (i : Int) : F32 := round32 i

/-- An untyped constant used at type `float32`. -/
def F32.const (q : ℚ) : F32 := round32 q

/-- The `float32` quotient `a / b` for `b` other than zero. -/
def F32.div (a b : F32) : F32 := round32 (a / b)

/-- The `float32` product. -/
def F32.mul (a b : F32) : F32 := round32 (a * b)

/-- The `float32` sum. -/
def F32.add (a b : F32) : F32 := round32 (a + b)

/-- The value `baseProgress*0.7 + 0.3` sent for window `i` of `n`, with
`baseProgress = float32(i) / float32(n)`.  A compiler may fuse the product and the sum
into one operation with a single rounding (`fused`), or round each. -/
def progressValue (fused : Bool) (i n : Int) : F32 :=
  let baseProgress := F32.div (F32.ofInt i) (F32.ofInt n)
  if fused then round32 (baseProgress * F32.const (7 / 10) + F32.const (3 / 10))
  else F32.add (F32.mul baseProgress (F32.const (7 / 10))) (F32.const (3 / 10))

/-! ## Records, requests and the scheduler -/

/-- Modelled from the spec: `models.FeishuMeetingTopUserItem` is declared outside the
source file; a record carries the start time of its window "plus whatever fields the
remote API returned", kept here as one uninterpreted text. -/
structure FeishuMeetingTopUserItem where
  StartTime : Time
  fields : String
deriving DecidableEq

/-- An `*http.Request` as built by `http.NewRequest(method, url, nil)`. -/
structure Request where
  method : String
  url : String
deriving DecidableEq

/-- A scheduler as returned by `utils.NewWorkerScheduler`. -/
structure WorkerScheduler where
  poolSize : Int
  ratePerSecond : Int
deriving DecidableEq

/-- Modelled from the spec: `utils.NewWorkerScheduler` is not part of the source file.
The spec: "Fails with a `ConfigError` if `poolSize <= 0` or `ratePerSecond <= 0`";
`configError` is the error value it then returns. -/
def NewWorkerScheduler (configError : GoError) (poolSize ratePerSecond : Int) :
    Except GoError WorkerScheduler :=
  if poolSize ≤ 0 ∨ ratePerSecond ≤ 0 then .error configError
  else .ok ⟨poolSize, ratePerSecond⟩

/-- What the collaborators of one run of `Execute` do. -/
structure World where
  /-- whether the compiler fuses `x*y + z` on `float32` -/
  fusedMulAdd : Bool
  /-- the variable `feishu.ServerUrl` -/
  ServerUrl : String
  /-- the function `core.GetRateLimitPerSecond(options, defaultValue)` -/
  GetRateLimitPerSecond : Options → Int → Except GoError Int
  /-- the error `utils.NewWorkerScheduler` reports for a bad pool size or rate -/
  configError : GoError
  /-- the result of `atm.GetAccessToken()` -/
  GetAccessToken : Except GoError String
  /-- the `.Error` of `lakeModels.Db.Delete(models.FeishuMeetingTopUserItem{}, "1=1")` -/
  DbDelete : Option GoError
  /-- the reading of `time.Now()` -/
  Now : Time
  /-- the location `time.Local`, in which the reading of `time.Now()` is -/
  Local : Location
  /-- the value returned by the `k`-th call (from 0) of `scheduler.Submit` -/
  Submit : Nat → Option GoError
  /-- the call `FeishuClient.Do(request, tenantAccessToken)` -/
  Do : Request → String → Except GoError String
  /-- the call `json.Unmarshal(resp, &result)` followed by `result.Data.TopUserReport` -/
  Unmarshal : String → Except GoError (List FeishuMeetingTopUserItem)
  /-- the `.Error` of `lakeModels.Db.Save(records)` -/
  DbSave : List FeishuMeetingTopUserItem → Option GoError

/-! ## The task closure -/

/-- The variables captured by the closure passed to `scheduler.Submit`. -/
structure Task where
  params : Values
  tenantAccessToken : String
  tempStartDate : Time
deriving DecidableEq

/-- What a task body does to the outside. -/
inductive TaskEvent
  | fetch (request : Request) (token : String)
  | save (records : List FeishuMeetingTopUserItem)
deriving DecidableEq

/-- The request a task sends. -/
def Task.request (w : World) (t : Task) : Request :=
  ⟨"GET", w.ServerUrl ++ "/open-apis/vc/v1/reports/get_top_user?" ++ t.params.Encode⟩

/-- The body of the closure: its effects in order, and the error it returns. -/
def Task.run (w : World) (t : Task) : List TaskEvent × Option GoError :=
  let request := t.request w
  match w.Do request t.tenantAccessToken with
  | .error err =>
    ([.fetch request t.tenantAccessToken],
      some (fmtErrorf ("Current api req is " ++ t.params.Get "start_time" ++ ";") [err]))
  | .ok resp =>
    match w.Unmarshal resp with
    | .error err => ([.fetch request t.tenantAccessToken], some err)
    | .ok report =>
      let stamped := report.map fun item => { item with StartTime := t.tempStartDate }
      ([.fetch request t.tenantAccessToken, .save stamped], w.DbSave stamped)

/-! ## `Execute` -/

/-- What `Execute` does to the outside. -/
inductive Event
  | logPrint (msg : String)
  | logError (msg : String)
  | progress (v : F32)
  | getAccessToken
  | dbDelete
  | submit (t : Task)
  | waitUntilFinish
deriving DecidableEq

/-- How a call ends: it returns an error or nil, or it panics. -/
inductive Outcome
  | returned (err : Option GoError)
  | panicked (why : String)
deriving DecidableEq

/-- One run: the effects in order and the way it ended. -/
structure Run where
  events : List Event
  outcome : Outcome
deriving DecidableEq

/-- The run `r` preceded by the effects `es`. -/
def Run.after (es : List Event) (r : Run) : Run := ⟨es ++ r.events, r.outcome⟩

/-- The panic of a method call through a nil `*WorkerScheduler`. -/
def nilScheduler : Outcome :=
  .panicked "runtime error: invalid memory address or nil pointer dereference"

/-- The parameters of the request for the window `[startDate, endDate)`. -/
def windowParams (startDate endDate : Time) : Values :=
  ((((Values.mk []).Add "start_time" (FormatInt startDate.Unix)).Add
    "end_time" (FormatInt endDate.Unix)).Add "limit" "100").Add "order_by" "2"

/-- The statement `for i := ...; i < numOfDaysToCollectInt; i++` and what follows it,
from the state at the loop test. -/
def dispatch (w : World) (scheduler : Option WorkerScheduler) (tenantAccessToken : String)
    (numOfDaysToCollectInt : Int) (i : Int) (endDate startDate : Time) : Run :=
  if i < numOfDaysToCollectInt then
    let params := windowParams startDate endDate
    let endDate := startDate
    let startDate := endDate.AddDate w.Local (-1)
    let tempStartDate := startDate
    Run.after [.progress (progressValue w.fusedMulAdd i numOfDaysToCollectInt)] <|
      match scheduler with
      | none => ⟨[], nilScheduler⟩
      | some _ =>
        Run.after [.submit ⟨params, tenantAccessToken, tempStartDate⟩] <|
          match w.Submit i.toNat with
          | some err => ⟨[], .returned (some err)⟩
          | none =>
            dispatch w scheduler tenantAccessToken numOfDaysToCollectInt (i + 1)
              endDate startDate
  else
    match scheduler with
    | none => ⟨[], nilScheduler⟩
    | some _ => ⟨[.waitUntilFinish, .progress 1], .returned none⟩
termination_by (numOfDaysToCollectInt - i).toNat
decreasing_by omega

/-- The method `Feishu.Execute(options, progress, ctx)`. -/
def Execute (w : World) (options : Options) : Run :=
  Run.after [.logPrint "start feishu plugin execution"] <|
    match options "numOfDaysToCollect" with
    | none => ⟨[], .returned (some (fmtErrorf "numOfDaysToCollect is invalid" []))⟩
    | some (.float64 x) =>
      let numOfDaysToCollectInt := intOfFloat64 x
      match w.GetRateLimitPerSecond options 5 with
      | .error err => ⟨[], .returned (some err)⟩
      | .ok rateLimitPerSecondInt =>
        let made := NewWorkerScheduler w.configError 10 rateLimitPerSecondInt
        Run.after
          (match made with
            | .error _ => [.logError "could not create scheduler"]
            | .ok _ => []) <|
        Run.after [.progress 0, .getAccessToken] <|
          match w.GetAccessToken with
          | .error err => ⟨[], .returned (some err)⟩
          | .ok tenantAccessToken =>
            Run.after [.progress (F32.const (1 / 10)), .dbDelete] <|
              match w.DbDelete with
              | some err => ⟨[], .returned (some err)⟩
              | none =>
                let endDate := w.Now.Truncate (24 * Hour)
                let startDate := endDate.AddDate w.Local (-1)
                Run.after [.progress (F32.const (2 / 10)), .progress (F32.const (3 / 10))] <|
                  dispatch w made.toOption tenantAccessToken numOfDaysToCollectInt 0
                    endDate startDate
    | some v =>
      ⟨[], .panicked
        ("interface conversion: interface \x7b\x7d is " ++ v.typeName ++ ", not float64")⟩

/-! ## Observations on a run -/

/-- The values sent on the progress channel, in order. -/
def Run.progressValues (r : Run) : List F32 :=
  r.events.filterMap fun e => match e with
    | .progress v => some v
    | _ => none

/-- The tasks handed to `scheduler.Submit`, in order. -/
def Run.submitted (r : Run) : List Task :=
  r.events.filterMap fun e => match e with
    | .submit t => some t
    | _ => none

/-- The `start_time` and `end_time` parameters of a task's request. -/
def Task.window (t : Task) : String × String :=
  (t.params.Get "start_time", t.params.Get "end_time")

/-- The records a task body hands to `Db.Save`. -/
def Task.saved (w : World) (t : Task) : List (List FeishuMeetingTopUserItem) :=
  (t.run w).1.filterMap fun e => match e with
    | .save rs => some rs
    | _ => none

/-- The number of fetches a task body performs. -/
def Task.fetches (w : World) (t : Task) : Nat :=
  ((t.run w).1.filter fun e => match e with
    | .fetch _ _ => true
    | _ => false).length



/-- The boundaries of the windows of a run anchored at `T` in the location `loc`:
boundary 0 is `T`, and each further one is the one before moved back one calendar day
by `AddDate(0, 0, -1)`. -/
def windowEdge (loc : Location) (T : Time) : Nat → Time
  | 0 => T
  | k + 1 => (windowEdge loc T k).AddDate loc (-1)

/-- The task submitted for window `i` (from 0) of a run anchored at `T`, in closed form:
its request covers the time from boundary `i + 1` to boundary `i`, and its records are
stamped with boundary `i + 2`. -/
def windowTask (token : String) (loc : Location) (T : Time) (i : Nat) : Task :=
  ⟨windowParams (windowEdge loc T (i + 1)) (windowEdge loc T i), token,
    windowEdge loc T (i + 2)⟩

/-- The effects of a run in which every collaborator succeeds. -/
def okEvents (fused : Bool) (tok : String) (loc : Location) (N : Int) (T : Time) :
    List Event :=
  [.logPrint "start feishu plugin execution", .progress 0, .getAccessToken,
    .progress (F32.const (1 / 10)), .dbDelete, .progress (F32.const (2 / 10)),
    .progress (F32.const (3 / 10))] ++
  ((List.range N.toNat).flatMap (fun j : Nat =>
      [Event.progress (progressValue fused j N), .submit (windowTask tok loc T j)])
    ++ [.waitUntilFinish, .progress 1])

/-! ## Concrete inputs -/

/-- Options that bind `numOfDaysToCollect` to the `float64` value `n`, as a decoded JSON
body does. -/
def daysOptions (n : ℚ) : Options :=
  fun key => if key = "numOfDaysToCollect" then some (.float64 n) else none

/-- The options the standalone `main` passes: `numOfDaysToCollect` bound to the untyped
constant 80, which an `interface{}` holds as an `int`. -/
def mainOptions : Options :=
  fun key => if key = "numOfDaysToCollect" then some (.int 80) else none

/-- A world in which every collaborator succeeds.  The local zone is UTC and the clock
reads 2023-11-14T22:13:20.123456789Z, so the anchor is 2023-11-14T00:00:00Z
(1699920000). -/
def calmWorld : World :=
  { fusedMulAdd := false
    ServerUrl := "https://open.feishu.cn"
    GetRateLimitPerSecond := fun _ defaultValue => .ok defaultValue
    configError := ⟨"*errors.errorString", "invalid scheduler configuration"⟩
    GetAccessToken := .ok "t-token"
    DbDelete := none
    Now := ⟨1700000000123456789⟩
    Local := UTC
    Submit := fun _ => none
    Do := fun _ _ => .ok "body"
    Unmarshal := fun _ => .ok [⟨⟨0⟩, "user-1"⟩]
    DbSave := fun _ => none }

/-- The error of a failed HTTP round trip. -/
def netError : GoError := ⟨"*url.Error", "connection refused"⟩

/-- The calm world, except that every fetch fails. -/
def fetchFailsWorld : World := { calmWorld with Do := fun _ _ => .error netError }

/-- The calm world, except that no access token can be obtained. -/
def tokenFailsWorld : World := { calmWorld with GetAccessToken := .error netError }

/-- The calm world, except that deleting the prior results fails. -/
def deleteFailsWorld : World :=
  { calmWorld with DbDelete := some ⟨"*errors.errorString", "database is locked"⟩ }

/-- The calm world, except that the options ask for a rate of 0 per second. -/
def zeroRateWorld : World := { calmWorld with GetRateLimitPerSecond := fun _ _ => .ok 0 }

/-- The location America/New_York around the autumn of 2023: daylight time (UTC-4) from
2023-03-12T07:00:00Z until 2023-11-05T06:00:00Z (1699164000), standard time (UTC-5) from
then until 2024-03-10T07:00:00Z. -/
def newYork : Location :=
  ⟨fun sec =>
    if sec < 1699164000 then ⟨-14400, 1678604400, 1699164000⟩
    else ⟨-18000, 1699164000, 1710054000⟩⟩

/-- The calm world on a machine in New York whose clock reads 2023-11-07T01:00:00Z, so
that the anchor is 2023-11-07T00:00:00Z (1699315200), which is 19:00 on November 6
there. -/
def newYorkWorld : World := { calmWorld with Now := ⟨1699318800000000000⟩, Local := newYork }

/-! ## Rounding lemmas -/

theorem roundHalfEven_intCast (k : ℤ) : roundHalfEven (k : ℚ) = k := by
  simp [roundHalfEven]

theorem roundHalfEven_mono {x y : ℚ} (h : x ≤ y) : roundHalfEven x ≤ roundHalfEven y := by
  have hfx := Int.floor_le x
  have hfy := Int.floor_le y
  have hlx := Int.lt_floor_add_one x
  have hly := Int.lt_floor_add_one y
  have hm : ⌊x⌋ ≤ ⌊y⌋ := Int.floor_mono h
  rcases hm.eq_or_lt with he | hlt
  · have hq : ((⌊x⌋ : ℤ) : ℚ) = ((⌊y⌋ : ℤ) : ℚ) := by rw [he]
    unfold roundHalfEven
    split_ifs <;> first
      | omega
      | (exfalso; linarith)
  · unfold roundHalfEven
    split_ifs <;> omega

theorem ulp32_pos (q : ℚ) : 0 < ulp32 q := by
  unfold ulp32
  positivity

theorem round32_zero : round32 0 = 0 := by
  simp [round32, roundHalfEven]

theorem round32_nonneg {q : ℚ} (h : 0 ≤ q) : 0 ≤ round32 q := by
  unfold round32
  have hu := ulp32_pos q
  have h0 : (0 : ℤ) ≤ roundHalfEven (q / ulp32 q) := by
    have := roundHalfEven_mono (div_nonneg h hu.le)
    simpa [roundHalfEven] using this
  have : (0 : ℚ) ≤ (roundHalfEven (q / ulp32 q) : ℚ) := by exact_mod_cast h0
  positivity

theorem roundHalfEven_le_of_le {x : ℚ} {k : ℤ} (h : x ≤ k) : roundHalfEven x ≤ k := by
  have := roundHalfEven_mono h
  rwa [roundHalfEven_intCast] at this

theorem le_roundHalfEven_of_le {x : ℚ} {k : ℤ} (h : (k : ℚ) ≤ x) : k ≤ roundHalfEven x := by
  have := roundHalfEven_mono h
  rwa [roundHalfEven_intCast] at this

theorem roundHalfEven_eq_of_near {x : ℚ} {k : ℤ} (h1 : (k : ℚ) - 1 / 2 < x)
    (h2 : x < k + 1 / 2) : roundHalfEven x = k := by
  have hfx := Int.floor_le x
  have hlx := Int.lt_floor_add_one x
  have hle : ⌊x⌋ ≤ k := by
    have : ((⌊x⌋ : ℤ) : ℚ) < ((k + 1 : ℤ) : ℚ) := by push_cast; linarith
    have := Int.cast_lt.mp this
    omega
  have hge : k ≤ ⌊x⌋ + 1 := by
    have : ((k : ℤ) : ℚ) < ((⌊x⌋ + 2 : ℤ) : ℚ) := by push_cast; linarith
    have := Int.cast_lt.mp this
    omega
  have hcases : ⌊x⌋ = k ∨ ⌊x⌋ = k - 1 := by omega
  unfold roundHalfEven
  rcases hcases with hk | hk
  · rw [hk] at hfx hlx ⊢
    split_ifs <;> first
      | rfl
      | (exfalso; linarith)
  · have hq : ((⌊x⌋ : ℤ) : ℚ) = (k : ℚ) - 1 := by rw [hk]; push_cast; ring
    rw [hq] at hfx hlx
    rw [hq, hk]
    split_ifs <;> first
      | omega
      | (exfalso; linarith)

theorem log2_eq {q : ℚ} {k : ℤ} (hq : 0 < q) (h1 : (2 : ℚ) ^ k ≤ q) (h2 : q < (2 : ℚ) ^ (k + 1)) :
    Int.log 2 q = k := by
  have a1 : k ≤ Int.log 2 q := (Int.zpow_le_iff_le_log (by norm_num) hq).mp (by simpa using h1)
  have a2 : Int.log 2 q < k + 1 := (Int.lt_zpow_iff_log_lt (by norm_num) hq).mp (by simpa using h2)
  omega

theorem lt_two_zpow_exp {q : ℚ} (_h : 0 < q) :
    q < (2 : ℚ) ^ (max (Int.log 2 q) (-126) + 1) := by
  have h1 : q < ((2 : ℕ) : ℚ) ^ (Int.log 2 q + 1) := Int.lt_zpow_succ_log_self (by norm_num) q
  have h2 : (2 : ℚ) ^ (Int.log 2 q + 1) ≤ (2 : ℚ) ^ (max (Int.log 2 q) (-126) + 1) :=
    zpow_le_zpow_right₀ (by norm_num) (by omega)
  calc q < (2 : ℚ) ^ (Int.log 2 q + 1) := by simpa using h1
    _ ≤ _ := h2

theorem two_zpow_exp_le {q : ℚ} (h : 0 < q) (hE : -126 < max (Int.log 2 q) (-126)) :
    (2 : ℚ) ^ (max (Int.log 2 q) (-126)) ≤ q := by
  have hm : max (Int.log 2 q) (-126) = Int.log 2 q := by omega
  rw [hm]
  have h1 : ((2 : ℕ) : ℚ) ^ (Int.log 2 q) ≤ q := Int.zpow_log_le_self (by norm_num) h
  simpa using h1

theorem two_zpow_split (a : ℤ) (n : ℤ) :
    (2 : ℚ) ^ (a + n) = (2 : ℚ) ^ (n + 23) * (2 : ℚ) ^ (a - 23) := by
  rw [← zpow_add₀ (by norm_num : (2 : ℚ) ≠ 0)]
  congr 1
  ring

theorem round32_mono {p q : ℚ} (hp : 0 ≤ p) (hpq : p ≤ q) : round32 p ≤ round32 q := by
  rcases hp.eq_or_lt with h0 | hpos
  · rw [← h0, round32_zero]
    exact round32_nonneg (h0 ▸ hpq)
  · have hq : 0 < q := lt_of_lt_of_le hpos hpq
    have hab : max (Int.log 2 p) (-126) ≤ max (Int.log 2 q) (-126) :=
      max_le_max (Int.log_mono_right hpos hpq) le_rfl
    unfold round32 ulp32
    rw [abs_of_pos hpos, abs_of_pos hq]
    generalize ha : max (Int.log 2 p) (-126) = a at hab
    generalize hb : max (Int.log 2 q) (-126) = b at hab
    have hua : (0 : ℚ) < 2 ^ (a - 23) := by positivity
    have hub : (0 : ℚ) < 2 ^ (b - 23) := by positivity
    rcases hab.eq_or_lt with he | hlt
    · subst he
      apply mul_le_mul_of_nonneg_right _ hua.le
      exact_mod_cast roundHalfEven_mono (div_le_div_of_nonneg_right hpq hua.le)
    · have hup : (roundHalfEven (p / 2 ^ (a - 23)) : ℚ) * 2 ^ (a - 23) ≤ 2 ^ (a + 1) := by
        have hlt2 : p < 2 ^ (a + 1) := ha ▸ lt_two_zpow_exp hpos
        rw [two_zpow_split a 1]
        apply mul_le_mul_of_nonneg_right _ hua.le
        have hx : p / 2 ^ (a - 23) ≤ ((16777216 : ℤ) : ℚ) := by
          rw [div_le_iff₀ hua]
          have := two_zpow_split a 1
          norm_num at this
          push_cast
          linarith
        have := roundHalfEven_le_of_le hx
        norm_num
        exact_mod_cast this
      have hlo : (2 : ℚ) ^ b ≤ (roundHalfEven (q / 2 ^ (b - 23)) : ℚ) * 2 ^ (b - 23) := by
        have hle2 : (2 : ℚ) ^ b ≤ q := hb ▸ two_zpow_exp_le hq (by omega)
        have hs := two_zpow_split b 0
        rw [add_zero] at hs
        rw [hs]
        apply mul_le_mul_of_nonneg_right _ hub.le
        have hx : ((8388608 : ℤ) : ℚ) ≤ q / 2 ^ (b - 23) := by
          rw [le_div_iff₀ hub]
          norm_num at hs
          push_cast
          linarith
        have := le_roundHalfEven_of_le hx
        norm_num
        exact_mod_cast this
      have hmid : (2 : ℚ) ^ (a + 1) ≤ 2 ^ b := zpow_le_zpow_right₀ (by norm_num) (by omega)
      linarith

theorem round32_eq {q : ℚ} (e k : ℤ) (hq : 0 < q) (hlo : (2 : ℚ) ^ e ≤ q)
    (hhi : q < (2 : ℚ) ^ (e + 1)) (he : -126 ≤ e)
    (h1 : ((k : ℚ) - 1 / 2) * 2 ^ (e - 23) < q) (h2 : q < ((k : ℚ) + 1 / 2) * 2 ^ (e - 23)) :
    round32 q = k * 2 ^ (e - 23) := by
  have hu : (0 : ℚ) < 2 ^ (e - 23) := by positivity
  unfold round32 ulp32
  rw [abs_of_pos hq, log2_eq hq hlo hhi, max_eq_left he]
  rw [roundHalfEven_eq_of_near (k := k)]
  · rw [lt_div_iff₀ hu]; exact h1
  · rw [div_lt_iff₀ hu]; exact h2

theorem round32_one : round32 1 = 1 := by
  rw [round32_eq 0 8388608] <;> norm_num

theorem const_seven_tenths : F32.const (7 / 10) = 11744051 / 16777216 := by
  unfold F32.const
  rw [round32_eq (-1) 11744051] <;> norm_num

theorem const_three_tenths : F32.const (3 / 10) = 5033165 / 16777216 := by
  unfold F32.const
  rw [round32_eq (-2) 10066330] <;> norm_num

theorem round32_seven_tenths : round32 (11744051 / 16777216) = 11744051 / 16777216 := by
  rw [round32_eq (-1) 11744051] <;> norm_num

theorem round32_three_tenths : round32 (5033165 / 16777216) = 5033165 / 16777216 := by
  rw [round32_eq (-2) 10066330] <;> norm_num

theorem const_chain :
    (0 : ℚ) ≤ F32.const (1 / 10) ∧ F32.const (1 / 10) ≤ F32.const (2 / 10) ∧
      F32.const (2 / 10) ≤ F32.const (3 / 10) ∧ F32.const (3 / 10) < 1 := by
  refine ⟨round32_nonneg (by norm_num), round32_mono (by norm_num) (by norm_num),
    round32_mono (by norm_num) (by norm_num), ?_⟩
  rw [const_three_tenths]; norm_num

/-- The divisor of the progress fraction is at least one as soon as the loop body runs. -/
theorem one_le_ofInt {n : Int} (h : 1 ≤ n) : (1 : ℚ) ≤ F32.ofInt n := by
  have h1 : (1 : ℚ) ≤ (n : ℚ) := by exact_mod_cast h
  have := round32_mono (by norm_num) h1
  rwa [round32_one] at this

theorem progressValue_ge (fused : Bool) {i n : Int} (hi : 0 ≤ i) (hn : 1 ≤ n) :
    F32.const (3 / 10) ≤ progressValue fused i n := by
  have hd := one_le_ofInt hn
  have hnum : (0 : ℚ) ≤ F32.ofInt i := round32_nonneg (by exact_mod_cast hi)
  have hb : (0 : ℚ) ≤ F32.div (F32.ofInt i) (F32.ofInt n) :=
    round32_nonneg (div_nonneg hnum (by linarith))
  have h7 : (0 : ℚ) ≤ F32.const (7 / 10) := round32_nonneg (by norm_num)
  have h3 : round32 (F32.const (3 / 10)) = F32.const (3 / 10) := by
    rw [const_three_tenths]; exact round32_three_tenths
  have h30 : (0 : ℚ) ≤ F32.const (3 / 10) := round32_nonneg (by norm_num)
  unfold progressValue
  cases fused
  · simp only [Bool.false_eq_true, if_false]
    have hm : (0 : ℚ) ≤ F32.mul (F32.div (F32.ofInt i) (F32.ofInt n)) (F32.const (7 / 10)) :=
      round32_nonneg (mul_nonneg hb h7)
    have := round32_mono h30 (show F32.const (3 / 10) ≤
      F32.mul (F32.div (F32.ofInt i) (F32.ofInt n)) (F32.const (7 / 10)) + F32.const (3 / 10)
      by linarith)
    rw [h3] at this
    exact this
  · simp only [if_true]
    have := round32_mono h30 (show F32.const (3 / 10) ≤
      F32.div (F32.ofInt i) (F32.ofInt n) * F32.const (7 / 10) + F32.const (3 / 10)
      by nlinarith [mul_nonneg hb h7])
    rw [h3] at this
    exact this

theorem progressValue_mono (fused : Bool) {i j n : Int} (hi : 0 ≤ i) (hij : i ≤ j)
    (hn : 1 ≤ n) : progressValue fused i n ≤ progressValue fused j n := by
  have hd := one_le_ofInt hn
  have hd0 : (0 : ℚ) < F32.ofInt n := by linarith
  have hni : (0 : ℚ) ≤ F32.ofInt i := round32_nonneg (by exact_mod_cast hi)
  have hnum : F32.ofInt i ≤ F32.ofInt j :=
    round32_mono (by exact_mod_cast hi) (by exact_mod_cast hij)
  have hb : F32.div (F32.ofInt i) (F32.ofInt n) ≤ F32.div (F32.ofInt j) (F32.ofInt n) :=
    round32_mono (div_nonneg hni hd0.le) (div_le_div_of_nonneg_right hnum hd0.le)
  have hb0 : (0 : ℚ) ≤ F32.div (F32.ofInt i) (F32.ofInt n) :=
    round32_nonneg (div_nonneg hni hd0.le)
  have h7 : (0 : ℚ) ≤ F32.const (7 / 10) := round32_nonneg (by norm_num)
  have h30 : (0 : ℚ) ≤ F32.const (3 / 10) := round32_nonneg (by norm_num)
  have hprod := mul_le_mul_of_nonneg_right hb h7
  have hprod0 := mul_nonneg hb0 h7
  unfold progressValue
  cases fused
  · simp only [Bool.false_eq_true, if_false]
    have hm := round32_mono hprod0 hprod
    have hm0 := round32_nonneg hprod0
    exact round32_mono (by unfold F32.mul; linarith) (by unfold F32.mul; linarith)
  · simp only [if_true]
    exact round32_mono (by linarith) (by linarith)

theorem progressValue_le_one (fused : Bool) {i n : Int} (hi : 0 ≤ i) (hin : i ≤ n)
    (hn : 1 ≤ n) : progressValue fused i n ≤ 1 := by
  have hd := one_le_ofInt hn
  have hd0 : (0 : ℚ) < F32.ofInt n := by linarith
  have hni : (0 : ℚ) ≤ F32.ofInt i := round32_nonneg (by exact_mod_cast hi)
  have hnum : F32.ofInt i ≤ F32.ofInt n :=
    round32_mono (by exact_mod_cast hi) (by exact_mod_cast hin)
  have hq0 : (0 : ℚ) ≤ F32.ofInt i / F32.ofInt n := div_nonneg hni hd0.le
  have hq1 : F32.ofInt i / F32.ofInt n ≤ 1 := (div_le_one hd0).mpr hnum
  have hb0 : (0 : ℚ) ≤ F32.div (F32.ofInt i) (F32.ofInt n) := round32_nonneg hq0
  have hb1 : F32.div (F32.ofInt i) (F32.ofInt n) ≤ 1 := by
    have := round32_mono hq0 hq1
    rwa [round32_one] at this
  have e7 := const_seven_tenths
  have e3 := const_three_tenths
  unfold progressValue
  cases fused
  · simp only [Bool.false_eq_true, if_false]
    have hm0 : (0 : ℚ) ≤ F32.div (F32.ofInt i) (F32.ofInt n) * F32.const (7 / 10) := by
      rw [e7]; positivity
    have hm1 : F32.div (F32.ofInt i) (F32.ofInt n) * F32.const (7 / 10)
        ≤ 11744051 / 16777216 := by
      rw [e7]; linarith
    have hm := round32_mono hm0 hm1
    rw [round32_seven_tenths] at hm
    have hmn := round32_nonneg hm0
    have hs := round32_mono (p := F32.mul (F32.div (F32.ofInt i) (F32.ofInt n))
      (F32.const (7 / 10)) + F32.const (3 / 10)) (q := 1)
      (by unfold F32.mul; rw [e3]; linarith) (by unfold F32.mul; rw [e3]; linarith)
    rw [round32_one] at hs
    exact hs
  · simp only [if_true]
    have hs := round32_mono (p := F32.div (F32.ofInt i) (F32.ofInt n) * F32.const (7 / 10)
      + F32.const (3 / 10)) (q := 1)
      (by rw [e7, e3]; positivity) (by rw [e7, e3]; linarith)
    rw [round32_one] at hs
    exact hs

/-! ## The dispatch loop -/

theorem dispatch_ok (w : World) (s : WorkerScheduler) (tok : String) (N : Int) (T : Time)
    (hs : ∀ k, w.Submit k = none) :
    ∀ (n k : Nat), (N - k).toNat = n →
      dispatch w (some s) tok N k (windowEdge w.Local T k) (windowEdge w.Local T (k + 1)) =
        ⟨(List.range' k n).flatMap (fun j : Nat =>
            [Event.progress (progressValue w.fusedMulAdd j N),
              .submit (windowTask tok w.Local T j)])
          ++ [.waitUntilFinish, .progress 1], .returned none⟩ := by
  intro n
  induction n with
  | zero =>
    intro k hk
    have hlt : ¬ ((k : Int) < N) := by omega
    rw [dispatch]
    simp [hlt]
  | succ n ih =>
    intro k hk
    have hlt : (k : Int) < N := by omega
    have hk1 : (N - ((k + 1 : Nat) : Int)).toNat = n := by push_cast; omega
    have := ih (k + 1) hk1
    rw [dispatch]
    simp only [hlt, if_true, hs, Run.after]
    push_cast at this
    have e1 : (windowEdge w.Local T (k + 1)).AddDate w.Local (-1) =
        windowEdge w.Local T (k + 1 + 1) := rfl
    rw [e1, this]
    simp [List.range'_succ, windowTask]

theorem dispatch_ok_zero (w : World) (s : WorkerScheduler) (tok : String) (N : Int) (T : Time)
    (hs : ∀ k, w.Submit k = none) :
    dispatch w (some s) tok N 0 T (T.AddDate w.Local (-1)) =
      ⟨(List.range N.toNat).flatMap (fun j : Nat =>
          [Event.progress (progressValue w.fusedMulAdd j N),
            .submit (windowTask tok w.Local T j)])
        ++ [.waitUntilFinish, .progress 1], .returned none⟩ := by
  have := dispatch_ok w s tok N T hs N.toNat 0 (by simp)
  simp only [Nat.cast_zero, zero_add, windowEdge] at this
  rw [this, List.range_eq_range']

theorem Execute_ok (w : World) (o : Options) (x : ℚ) (r : Int) (tok : String)
    (hopt : o "numOfDaysToCollect" = some (.float64 x))
    (hrate : w.GetRateLimitPerSecond o 5 = .ok r) (hr : 0 < r)
    (htok : w.GetAccessToken = .ok tok) (hdel : w.DbDelete = none)
    (hsub : ∀ k, w.Submit k = none) :
    Execute w o =
      ⟨okEvents w.fusedMulAdd tok w.Local (intOfFloat64 x) (w.Now.Truncate (24 * Hour)),
        .returned none⟩ := by
  have hmade : NewWorkerScheduler w.configError 10 r = .ok ⟨10, r⟩ := by
    unfold NewWorkerScheduler
    rw [if_neg (by omega)]
  unfold Execute
  simp only [hopt, hrate, htok, hdel, hmade, Run.after, Except.toOption]
  rw [dispatch_ok_zero w _ tok _ _ hsub]
  simp [okEvents]

theorem filterMap_progress_windows (fused : Bool) (tok : String) (loc : Location) (N : Int)
    (T : Time) (l : List Nat) :
    (l.flatMap (fun j : Nat =>
        [Event.progress (progressValue fused j N),
          .submit (windowTask tok loc T j)])).filterMap
      (fun e => match e with
        | .progress v => some v
        | _ => none) = l.map (fun j : Nat => progressValue fused j N) := by
  induction l with
  | nil => rfl
  | cons a l ih => simp [List.flatMap_cons, ih]

theorem filterMap_submit_windows (fused : Bool) (tok : String) (loc : Location) (N : Int)
    (T : Time) (l : List Nat) :
    (l.flatMap (fun j : Nat =>
        [Event.progress (progressValue fused j N),
          .submit (windowTask tok loc T j)])).filterMap
      (fun e => match e with
        | .submit t => some t
        | _ => none) = l.map (windowTask tok loc T) := by
  induction l with
  | nil => rfl
  | cons a l ih => simp [List.flatMap_cons, ih]

theorem okEvents_progressValues (fused : Bool) (tok : String) (loc : Location) (N : Int)
    (T : Time) :
    (Run.mk (okEvents fused tok loc N T) (.returned none)).progressValues =
      [0, F32.const (1 / 10), F32.const (2 / 10), F32.const (3 / 10)] ++
        (List.range N.toNat).map (fun j : Nat => progressValue fused j N) ++ [1] := by
  simp only [Run.progressValues, okEvents, List.filterMap_append, filterMap_progress_windows]
  simp [List.filterMap_cons]

theorem okEvents_submitted (fused : Bool) (tok : String) (loc : Location) (N : Int)
    (T : Time) :
    (Run.mk (okEvents fused tok loc N T) (.returned none)).submitted =
      (List.range N.toNat).map (windowTask tok loc T) := by
  simp only [Run.submitted, okEvents, List.filterMap_append, filterMap_submit_windows]
  simp [List.filterMap_cons]

/-! ## Windows -/

theorem AddDate_fixed (loc : Location) (c : Int) (hfix : ∀ sec, (loc.lookup sec).offset = c)
    (t : Time) (days : Int) :
    t.AddDate loc days = ⟨t.unixNano + days * (24 * Hour)⟩ := by
  unfold Time.AddDate Hour
  simp only [hfix, Time.mk.injEq]
  have hdm := Int.ediv_add_emod t.unixNano 1000000000
  split_ifs <;> omega

theorem windowEdge_fixed (loc : Location) (c : Int)
    (hfix : ∀ sec, (loc.lookup sec).offset = c) (T : Time) (k : Nat) :
    windowEdge loc T k = ⟨T.unixNano - (k : Int) * (24 * Hour)⟩ := by
  induction k with
  | zero => simp [windowEdge]
  | succ k ih =>
    rw [windowEdge, ih, AddDate_fixed loc c hfix]
    simp only [Time.mk.injEq]
    push_cast
    ring

theorem Unix_windowEdge_fixed (loc : Location) (c : Int)
    (hfix : ∀ sec, (loc.lookup sec).offset = c) (T : Time) (k : Nat) :
    (windowEdge loc T k).Unix = T.Unix - 86400 * (k : Int) := by
  rw [windowEdge_fixed loc c hfix]
  unfold Time.Unix Hour
  have : T.unixNano - (k : Int) * (24 * (3600 * 1000000000))
      = T.unixNano + (-(86400 * (k : Int))) * 1000000000 := by ring
  rw [this, Int.add_mul_ediv_right _ _ (by norm_num)]
  ring

theorem window_windowTask (tok : String) (loc : Location) (T : Time) (i : Nat) :
    (windowTask tok loc T i).window =
      (FormatInt (windowEdge loc T (i + 1)).Unix, FormatInt (windowEdge loc T i).Unix) := by
  simp [Task.window, windowTask, windowParams, Values.Get, Values.Add, addEntry, getEntry]

theorem contiguous_of_closed_form (S : Nat → String) (n : Nat) (ws : List (String × String))
    (h : ws = (List.range n).map (fun i : Nat => (S (i + 1), S i))) :
    ∀ (i : Nat) (a b : String × String), ws[i]? = some a → ws[i + 1]? = some b → b.2 = a.1 := by
  intro i a b ha hb
  subst h
  rw [List.getElem?_map] at ha hb
  have hi : i + 1 < n := by
    by_contra hc
    rw [List.getElem?_eq_none (by simpa using hc)] at hb
    simp at hb
  rw [List.getElem?_range hi] at hb
  rw [List.getElem?_range (by omega)] at ha
  simp only [Option.map_some', Option.some.injEq] at ha hb
  subst ha hb
  rfl

/-! ## The claims -/

/-- C1 (the code departs from the claim): with three windows and the anchor 1699920000
(2023-11-14T00:00:00Z), the requests send `start_time` 1699833600, 1699747200 and
1699660800, while the records saved by the three tasks carry a `StartTime` that is one
day earlier each: 1699747200, 1699660800 and 1699574400. -/
theorem stamp_is_one_day_before_window_start :
    (Execute calmWorld (daysOptions 3)).submitted.map
        (fun t => (t.window.1, (t.saved calmWorld).map fun rs =>
          rs.map fun item => FormatInt item.StartTime.Unix)) =
      [("1699833600", [["1699747200"]]), ("1699747200", [["1699660800"]]),
        ("1699660800", [["1699574400"]])] := by
  rw [Execute_ok calmWorld (daysOptions 3) 3 5 "t-token" rfl rfl (by norm_num) rfl rfl
    (fun _ => rfl), okEvents_submitted]
  decide

/-- C3 (the claim fails): on a machine in New York, with the anchor 2023-11-07T00:00:00Z
(1699315200) and two windows, the second request covers 1699138800 to 1699228800, which
is 90000 seconds, because the day it steps over, November 5, has 25 hours there.  The
claim gives it the start 1699142400. -/
theorem window_of_25_hours :
    (newYorkWorld.Now.Truncate (24 * Hour)).Unix = 1699315200 ∧
    (Execute newYorkWorld (daysOptions 2)).submitted.map Task.window =
      [("1699228800", "1699315200"), ("1699138800", "1699228800")] ∧
    (Execute newYorkWorld (daysOptions 2)).submitted.map Task.window ≠
      (List.range 2).map (fun i : Nat =>
        (FormatInt ((newYorkWorld.Now.Truncate (24 * Hour)).Unix - 86400 * ((i : Int) + 1)),
          FormatInt ((newYorkWorld.Now.Truncate (24 * Hour)).Unix - 86400 * (i : Int)))) := by
  have h : (Execute newYorkWorld (daysOptions 2)).submitted.map Task.window =
      [("1699228800", "1699315200"), ("1699138800", "1699228800")] := by
    rw [Execute_ok newYorkWorld (daysOptions 2) 2 5 "t-token" rfl rfl (by norm_num) rfl rfl
      (fun _ => rfl), okEvents_submitted]
    decide
  refine ⟨by decide, h, ?_⟩
  rw [h]
  decide

/-- C3, amended: when the scheduler is built and the setup steps and every `Submit`
succeed, `Execute` submits exactly `max N 0` requests, in order; request `i` has
`end_time` at boundary `i` and `start_time` at boundary `i + 1`, in Unix seconds, where
boundary 0 is the clock reading truncated to 24 hours and each further boundary is the
one before moved back one calendar day in the local zone; the end of each window is the
start of the one submitted before it.  When the local zone has one fixed offset from
UTC, boundary `k` is the anchor minus `86400 * k` seconds, so that each window is then
86400 seconds wide and starts before it ends. -/
theorem windows_descend_from_anchor (w : World) (o : Options) (x : ℚ) (r : Int) (tok : String)
    (hopt : o "numOfDaysToCollect" = some (.float64 x))
    (hrate : w.GetRateLimitPerSecond o 5 = .ok r) (hr : 0 < r)
    (htok : w.GetAccessToken = .ok tok) (hdel : w.DbDelete = none)
    (hsub : ∀ k, w.Submit k = none) :
    (Execute w o).submitted.map Task.window =
        (List.range (intOfFloat64 x).toNat).map (fun i : Nat =>
          (FormatInt (windowEdge w.Local (w.Now.Truncate (24 * Hour)) (i + 1)).Unix,
            FormatInt (windowEdge w.Local (w.Now.Truncate (24 * Hour)) i).Unix)) ∧
      ((Execute w o).submitted.length : Int) = max (intOfFloat64 x) 0 ∧
      windowEdge w.Local (w.Now.Truncate (24 * Hour)) 0 = w.Now.Truncate (24 * Hour) ∧
      (∀ k : Nat, windowEdge w.Local (w.Now.Truncate (24 * Hour)) (k + 1) =
        (windowEdge w.Local (w.Now.Truncate (24 * Hour)) k).AddDate w.Local (-1)) ∧
      (∀ (i : Nat) (a b : String × String),
        ((Execute w o).submitted.map Task.window)[i]? = some a →
        ((Execute w o).submitted.map Task.window)[i + 1]? = some b → b.2 = a.1) ∧
      (∀ c : Int, (∀ sec, (w.Local.lookup sec).offset = c) →
        (∀ k : Nat, (windowEdge w.Local (w.Now.Truncate (24 * Hour)) k).Unix =
          (w.Now.Truncate (24 * Hour)).Unix - 86400 * (k : Int)) ∧
        (∀ k : Nat, (windowEdge w.Local (w.Now.Truncate (24 * Hour)) k).Unix -
          (windowEdge w.Local (w.Now.Truncate (24 * Hour)) (k + 1)).Unix = 86400) ∧
        (Execute w o).submitted.map Task.window =
          (List.range (intOfFloat64 x).toNat).map (fun i : Nat =>
            (FormatInt ((w.Now.Truncate (24 * Hour)).Unix - 86400 * ((i : Int) + 1)),
              FormatInt ((w.Now.Truncate (24 * Hour)).Unix - 86400 * (i : Int))))) := by
  have hE := Execute_ok w o x r tok hopt hrate hr htok hdel hsub
  have hS : (Execute w o).submitted.map Task.window =
      (List.range (intOfFloat64 x).toNat).map (fun i : Nat =>
        (FormatInt (windowEdge w.Local (w.Now.Truncate (24 * Hour)) (i + 1)).Unix,
          FormatInt (windowEdge w.Local (w.Now.Truncate (24 * Hour)) i).Unix)) := by
    rw [hE, okEvents_submitted, List.map_map]
    apply List.map_congr_left
    intro i _
    simp only [Function.comp, window_windowTask]
  refine ⟨hS, ?_, rfl, fun _ => rfl, ?_, ?_⟩
  · rw [hE, okEvents_submitted, List.length_map, List.length_range]
    exact Int.toNat_eq_max _
  · exact contiguous_of_closed_form
      (fun j : Nat => FormatInt (windowEdge w.Local (w.Now.Truncate (24 * Hour)) j).Unix)
      _ _ hS
  · intro c hfix
    have hU := Unix_windowEdge_fixed w.Local c hfix (w.Now.Truncate (24 * Hour))
    refine ⟨hU, ?_, ?_⟩
    · intro k
      rw [hU, hU]
      push_cast
      ring
    · rw [hS]
      apply List.map_congr_left
      intro i _
      rw [hU, hU]
      push_cast
      rfl

/-- C3 amended, at two concrete runs: three windows from the anchor 1699920000 in UTC,
and two windows from the anchor 1699315200 in New York. -/
theorem windows_descend_from_anchor_witness :
    ((Execute calmWorld (daysOptions 3)).submitted.map Task.window =
        [("1699833600", "1699920000"), ("1699747200", "1699833600"),
          ("1699660800", "1699747200")] ∧
      ((Execute calmWorld (daysOptions 3)).submitted.length : Int) = 3) ∧
    ((Execute newYorkWorld (daysOptions 2)).submitted.map Task.window =
        [("1699228800", "1699315200"), ("1699138800", "1699228800")] ∧
      ((Execute newYorkWorld (daysOptions 2)).submitted.length : Int) = 2) := by
  have h := windows_descend_from_anchor calmWorld (daysOptions 3) 3 5 "t-token" rfl rfl
    (by norm_num) rfl rfl (fun _ => rfl)
  have g := windows_descend_from_anchor newYorkWorld (daysOptions 2) 2 5 "t-token" rfl rfl
    (by norm_num) rfl rfl (fun _ => rfl)
  exact ⟨⟨(h.2.2.2.2.2 0 (fun _ => rfl)).2.2.trans (by decide), h.2.1.trans (by decide)⟩,
    ⟨g.1.trans (by decide), g.2.1.trans (by decide)⟩⟩

theorem dispatch_now (w : World) (t : Time) (sch : Option WorkerScheduler) (tok : String)
    (N : Int) :
    ∀ (n : Nat) (i : Int) (e s : Time), (N - i).toNat = n →
      dispatch { w with Now := t } sch tok N i e s = dispatch w sch tok N i e s := by
  intro n
  induction n with
  | zero =>
    intro i e s hn
    have hlt : ¬ (i < N) := by omega
    conv_lhs => rw [dispatch.eq_def]
    conv_rhs => rw [dispatch.eq_def]
    simp [hlt]
  | succ n ih =>
    intro i e s hn
    have hlt : i < N := by omega
    conv_lhs => rw [dispatch.eq_def]
    conv_rhs => rw [dispatch.eq_def]
    simp only [hlt, if_true]
    cases sch with
    | none => rfl
    | some sc =>
      cases hsub : w.Submit i.toNat with
      | some err => simp [hsub]
      | none =>
        simp only [hsub]
        rw [ih (i + 1) _ _ (by omega)]

theorem Execute_same_day (w : World) (o : Options) (t1 t2 : Time)
    (h : t1.Truncate (24 * Hour) = t2.Truncate (24 * Hour)) :
    Execute { w with Now := t1 } o = Execute { w with Now := t2 } o := by
  unfold Execute
  simp only [h, dispatch_now w t1 _ _ _ _ _ _ _ rfl, dispatch_now w t2 _ _ _ _ _ _ _ rfl]

/-- C8: two clock readings with the same truncation to 24 hours make `Execute` generate
the same sequence of `(start_time, end_time)` boundaries, whatever the options; and the
anchor is a whole multiple of 24 hours (since the Unix epoch and since the zero time),
not later than the clock reading and less than one day before it. -/
theorem same_day_same_windows (w : World) (o : Options) (t1 t2 : Time)
    (h : t1.Truncate (24 * Hour) = t2.Truncate (24 * Hour)) :
    (Execute { w with Now := t1 } o).submitted.map Task.window =
        (Execute { w with Now := t2 } o).submitted.map Task.window ∧
      (24 * Hour ∣ (t1.Truncate (24 * Hour)).unixNano) ∧
      (24 * Hour ∣ (t1.Truncate (24 * Hour)).unixNano + unixToInternal * 1000000000) ∧
      (t1.Truncate (24 * Hour)).unixNano ≤ t1.unixNano ∧
      t1.unixNano - (t1.Truncate (24 * Hour)).unixNano < 24 * Hour := by
  refine ⟨by rw [Execute_same_day w o t1 t2 h], ?_, ?_, ?_, ?_⟩ <;>
    simp only [Time.Truncate, Hour, unixToInternal] <;> norm_num <;> omega

/-- C8, at a concrete pair of readings: 2023-11-14T22:13:20Z and 2023-11-14T00:00:01Z
share the anchor 2023-11-14T00:00:00Z and yield the same three windows. -/
theorem same_day_same_windows_witness :
    (Execute { calmWorld with Now := ⟨1700000000123456789⟩ } (daysOptions 3)).submitted.map
        Task.window =
      (Execute { calmWorld with Now := ⟨1699920001000000000⟩ } (daysOptions 3)).submitted.map
        Task.window ∧
    (Time.mk 1700000000123456789).Truncate (24 * Hour) = ⟨1699920000000000000⟩ :=
  ⟨(same_day_same_windows calmWorld (daysOptions 3) ⟨1700000000123456789⟩
    ⟨1699920001000000000⟩ (by decide)).1, by decide⟩

/-- C4: when the setup steps and every `Submit` succeed, the values sent on the progress
channel are 0, 0.1, 0.2, 0.3, then `float32(i)/float32(N)*0.7 + 0.3` for `i = 0..N-1`,
then 1; the sequence is non-decreasing, every value lies in `[0, 1]`, the first is 0 and
the last is 1.  For `N <= 0` the four setup values are followed directly by 1, and
whenever the loop body runs the divisor `float32(N)` is not zero. -/
theorem progress_nondecreasing (w : World) (o : Options) (x : ℚ) (r : Int) (tok : String)
    (hopt : o "numOfDaysToCollect" = some (.float64 x))
    (hrate : w.GetRateLimitPerSecond o 5 = .ok r) (hr : 0 < r)
    (htok : w.GetAccessToken = .ok tok) (hdel : w.DbDelete = none)
    (hsub : ∀ k, w.Submit k = none) :
    (Execute w o).progressValues =
        [0, F32.const (1 / 10), F32.const (2 / 10), F32.const (3 / 10)] ++
          (List.range (intOfFloat64 x).toNat).map
            (fun j : Nat => progressValue w.fusedMulAdd j (intOfFloat64 x)) ++ [1] ∧
      (Execute w o).progressValues.Pairwise (· ≤ ·) ∧
      (∀ v ∈ (Execute w o).progressValues, 0 ≤ v ∧ v ≤ 1) ∧
      (Execute w o).progressValues.head? = some 0 ∧
      (Execute w o).progressValues.getLast? = some 1 ∧
      (intOfFloat64 x ≤ 0 → (Execute w o).progressValues =
        [0, F32.const (1 / 10), F32.const (2 / 10), F32.const (3 / 10), 1]) ∧
      (0 < intOfFloat64 x → F32.ofInt (intOfFloat64 x) ≠ 0) := by
  have hE := Execute_ok w o x r tok hopt hrate hr htok hdel hsub
  have hV : (Execute w o).progressValues =
      [0, F32.const (1 / 10), F32.const (2 / 10), F32.const (3 / 10)] ++
        (List.range (intOfFloat64 x).toNat).map
          (fun j : Nat => progressValue w.fusedMulAdd j (intOfFloat64 x)) ++ [1] := by
    rw [hE, okEvents_progressValues]
  obtain ⟨h0, h1, h2, h3⟩ := const_chain
  have hLb : ∀ v ∈ (List.range (intOfFloat64 x).toNat).map
      (fun j : Nat => progressValue w.fusedMulAdd j (intOfFloat64 x)),
      F32.const (3 / 10) ≤ v ∧ v ≤ 1 := by
    intro v hv
    rw [List.mem_map] at hv
    obtain ⟨j, hj, rfl⟩ := hv
    rw [List.mem_range] at hj
    have hjN : (j : Int) < intOfFloat64 x := by omega
    exact ⟨progressValue_ge _ (by omega) (by omega),
      progressValue_le_one _ (by omega) (by omega) (by omega)⟩
  have hLp : ((List.range (intOfFloat64 x).toNat).map
      (fun j : Nat => progressValue w.fusedMulAdd j (intOfFloat64 x))).Pairwise (· ≤ ·) := by
    by_cases hN : 1 ≤ intOfFloat64 x
    · rw [List.pairwise_map]
      exact (List.pairwise_lt_range _).imp fun hab =>
        progressValue_mono _ (by omega) (by omega) hN
    · have hz : (intOfFloat64 x).toNat = 0 := by omega
      simp [hz]
  refine ⟨hV, ?_, ?_, ?_, ?_, ?_, ?_⟩
  · rw [hV, List.pairwise_append, List.pairwise_append]
    refine ⟨⟨?_, hLp, ?_⟩, List.pairwise_singleton _ _, ?_⟩
    · refine List.Pairwise.cons ?_ (List.Pairwise.cons ?_ (List.Pairwise.cons ?_
        (List.pairwise_singleton _ _)))
      · intro a ha
        simp only [List.mem_cons, List.mem_singleton, List.not_mem_nil, or_false] at ha
        rcases ha with rfl | rfl | rfl <;> linarith
      · intro a ha
        simp only [List.mem_cons, List.mem_singleton, List.not_mem_nil, or_false] at ha
        rcases ha with rfl | rfl <;> linarith
      · intro a ha
        rw [List.mem_singleton] at ha
        subst ha
        linarith
    · intro a ha b hb
      have := hLb b hb
      simp only [List.mem_cons, List.mem_singleton, List.not_mem_nil, or_false] at ha
      rcases ha with rfl | rfl | rfl | rfl <;> linarith
    · intro a ha b hb
      rw [List.mem_singleton] at hb
      subst hb
      rw [List.mem_append] at ha
      rcases ha with ha | ha
      · simp only [List.mem_cons, List.mem_singleton, List.not_mem_nil, or_false] at ha
        rcases ha with rfl | rfl | rfl | rfl <;> linarith
      · exact (hLb a ha).2
  · intro v hv
    rw [hV, List.mem_append, List.mem_append] at hv
    rcases hv with (hv | hv) | hv
    · simp only [List.mem_cons, List.mem_singleton, List.not_mem_nil, or_false] at hv
      rcases hv with rfl | rfl | rfl | rfl <;> constructor <;> linarith
    · have := hLb v hv
      constructor <;> linarith
    · rw [List.mem_singleton] at hv
      subst hv
      constructor <;> norm_num
  · rw [hV]; rfl
  · rw [hV, List.getLast?_concat]
  · intro hN
    have hz : (intOfFloat64 x).toNat = 0 := by omega
    rw [hV, hz]; rfl
  · intro hN
    have := one_le_ofInt (show 1 ≤ intOfFloat64 x by omega)
    intro hz
    rw [hz] at this
    norm_num at this

/-- C4, at a concrete run with three windows and at one with none. -/
theorem progress_nondecreasing_witness :
    (Execute calmWorld (daysOptions 3)).progressValues.Pairwise (· ≤ ·) ∧
      (Execute calmWorld (daysOptions 3)).progressValues.getLast? = some 1 ∧
      (Execute calmWorld (daysOptions 0)).progressValues =
        [0, F32.const (1 / 10), F32.const (2 / 10), F32.const (3 / 10), 1] :=
  ⟨(progress_nondecreasing calmWorld (daysOptions 3) 3 5 "t-token" rfl rfl (by norm_num)
      rfl rfl (fun _ => rfl)).2.1,
    (progress_nondecreasing calmWorld (daysOptions 3) 3 5 "t-token" rfl rfl (by norm_num)
      rfl rfl (fun _ => rfl)).2.2.2.2.1,
    (progress_nondecreasing calmWorld (daysOptions 0) 0 5 "t-token" rfl rfl (by norm_num)
      rfl rfl (fun _ => rfl)).2.2.2.2.2.1 (by decide)⟩

theorem dispatch_nil (w : World) (tok : String) (N i : Int) (e s : Time) :
    dispatch w none tok N i e s =
      if i < N then ⟨[.progress (progressValue w.fusedMulAdd i N)], nilScheduler⟩
      else ⟨[], nilScheduler⟩ := by
  rw [dispatch.eq_def]
  by_cases h : i < N <;> simp [h, Run.after]

theorem dispatch_no_delete (w : World) (sch : Option WorkerScheduler) (tok : String) (N : Int) :
    ∀ (n : Nat) (i : Int) (e s : Time), (N - i).toNat = n →
      Event.dbDelete ∉ (dispatch w sch tok N i e s).events := by
  intro n
  induction n with
  | zero =>
    intro i e s hn
    have hlt : ¬ (i < N) := by omega
    rw [dispatch.eq_def]
    cases sch <;> simp [hlt]
  | succ n ih =>
    intro i e s hn
    have hlt : i < N := by omega
    rw [dispatch.eq_def]
    simp only [hlt, if_true]
    cases sch with
    | none => simp [Run.after]
    | some sc =>
      cases hsub : w.Submit i.toNat with
      | some err => simp [Run.after]
      | none =>
        have := ih (i + 1) s (s.AddDate w.Local (-1)) (by omega)
        simpa [Run.after] using this

theorem no_delete_after_submit (P D : List Event) (hP : ∀ t, Event.submit t ∉ P)
    (hD : Event.dbDelete ∉ D) (a b : List Event) (t : Task)
    (h : P ++ D = a ++ Event.submit t :: b) : Event.dbDelete ∉ b := by
  rcases List.append_eq_append_iff.mp h with ⟨c, hc, hd⟩ | ⟨c, hc, hd⟩
  · intro hb
    exact hD (hd ▸ List.mem_append_right _ (List.mem_cons_of_mem _ hb))
  · cases c with
    | nil =>
      intro hb
      rw [List.nil_append] at hd
      exact hD (hd ▸ List.mem_cons_of_mem _ hb)
    | cons x c =>
      exfalso
      rw [List.cons_append, List.cons.injEq] at hd
      exact hP t (hc ▸ List.mem_append_right _ (hd.1 ▸ List.mem_cons_self _ _))

theorem Execute_shape (w : World) (o : Options) :
    ∃ P D, (Execute w o).events = P ++ D ∧ (∀ t, Event.submit t ∉ P) ∧
      Event.dbDelete ∉ D ∧ P.count Event.dbDelete ≤ 1 := by
  unfold Execute
  cases hopt : o "numOfDaysToCollect" with
  | none => exact ⟨_, [], (List.append_nil _).symm, by simp [Run.after], by simp, by
      simp [Run.after]⟩
  | some v =>
    cases v with
    | float64 x =>
      cases hrate : w.GetRateLimitPerSecond o 5 with
      | error err => exact ⟨_, [], (List.append_nil _).symm, by simp [Run.after], by simp, by
          simp [Run.after]⟩
      | ok r =>
        cases htok : w.GetAccessToken with
        | error err =>
          refine ⟨_, [], (List.append_nil _).symm, ?_, by simp, ?_⟩ <;>
            cases hm : NewWorkerScheduler w.configError 10 r <;> simp [Run.after, hm]
        | ok tok =>
          cases hdel : w.DbDelete with
          | some err =>
            refine ⟨_, [], (List.append_nil _).symm, ?_, by simp, ?_⟩ <;>
              cases hm : NewWorkerScheduler w.configError 10 r <;> simp [Run.after, hm]
          | none =>
            refine ⟨[.logPrint "start feishu plugin execution"] ++
                (match NewWorkerScheduler w.configError 10 r with
                  | .error _ => [.logError "could not create scheduler"]
                  | .ok _ => []) ++
                [.progress 0, .getAccessToken, .progress (F32.const (1 / 10)), .dbDelete,
                  .progress (F32.const (2 / 10)), .progress (F32.const (3 / 10))],
              (dispatch w (NewWorkerScheduler w.configError 10 r).toOption tok (intOfFloat64 x)
                0 (w.Now.Truncate (24 * Hour))
                ((w.Now.Truncate (24 * Hour)).AddDate w.Local (-1))).events, ?_, ?_,
              dispatch_no_delete w _ tok _ _ _ _ _ rfl, ?_⟩ <;>
              cases hm : NewWorkerScheduler w.configError 10 r <;> simp [Run.after, hm]
    | int n => exact ⟨_, [], (List.append_nil _).symm, by simp [Run.after], by simp, by
        simp [Run.after]⟩
    | string n => exact ⟨_, [], (List.append_nil _).symm, by simp [Run.after], by simp, by
        simp [Run.after]⟩
    | bool n => exact ⟨_, [], (List.append_nil _).symm, by simp [Run.after], by simp, by
        simp [Run.after]⟩
    | nil => exact ⟨_, [], (List.append_nil _).symm, by simp [Run.after], by simp, by
        simp [Run.after]⟩

theorem const_tenth_ne_one : F32.const (1 / 10) ≠ 1 := by
  obtain ⟨_, h1, h2, h3⟩ := const_chain
  intro h
  rw [h] at h1
  linarith

/-- C5: once the window count and the rate are read, a failure of `GetAccessToken`, or of
the delete of prior results, is the error `Execute` returns; no task is submitted and
the value 1 is never sent on the progress channel.  In every run the delete is invoked
at most once, and never after a `Submit`. -/
theorem setup_failure_aborts_before_dispatch (w : World) (o : Options) :
    (∀ (x : ℚ) (r : Int) (e : GoError), o "numOfDaysToCollect" = some (.float64 x) →
      w.GetRateLimitPerSecond o 5 = .ok r → w.GetAccessToken = .error e →
      (Execute w o).outcome = .returned (some e) ∧ (Execute w o).submitted = [] ∧
        (1 : F32) ∉ (Execute w o).progressValues ∧ Event.dbDelete ∉ (Execute w o).events) ∧
    (∀ (x : ℚ) (r : Int) (tok : String) (e : GoError),
      o "numOfDaysToCollect" = some (.float64 x) →
      w.GetRateLimitPerSecond o 5 = .ok r → w.GetAccessToken = .ok tok →
      w.DbDelete = some e →
      (Execute w o).outcome = .returned (some e) ∧ (Execute w o).submitted = [] ∧
        (1 : F32) ∉ (Execute w o).progressValues) ∧
    (Execute w o).events.count Event.dbDelete ≤ 1 ∧
    (∀ (a b : List Event) (t : Task), (Execute w o).events = a ++ Event.submit t :: b →
      Event.dbDelete ∉ b) := by
  have hne : ¬ (1 : F32) = F32.const 10⁻¹ := by
    rw [← one_div]
    exact Ne.symm const_tenth_ne_one
  refine ⟨?_, ?_, ?_, ?_⟩
  · intro x r e hopt hrate htok
    unfold Execute Run.submitted Run.progressValues
    cases hm : NewWorkerScheduler w.configError 10 r <;>
      simp [Run.after, hopt, hrate, htok, hm]
  · intro x r tok e hopt hrate htok hdel
    unfold Execute Run.submitted Run.progressValues
    cases hm : NewWorkerScheduler w.configError 10 r <;>
      simp [Run.after, hopt, hrate, htok, hdel, hm, hne]
  · obtain ⟨P, D, hE, _, hD, hc⟩ := Execute_shape w o
    rw [hE, List.count_append, List.count_eq_zero_of_not_mem hD]
    exact hc
  · intro a b t h
    obtain ⟨P, D, hE, hP, hD, _⟩ := Execute_shape w o
    exact no_delete_after_submit P D hP hD a b t (hE ▸ h)

/-- C5, at two concrete runs: one where no token can be obtained and one where the
delete fails. -/
theorem setup_failure_aborts_before_dispatch_witness :
    ((Execute tokenFailsWorld (daysOptions 3)).outcome = .returned (some netError) ∧
      (Execute tokenFailsWorld (daysOptions 3)).submitted = []) ∧
    ((Execute deleteFailsWorld (daysOptions 3)).outcome =
        .returned (some ⟨"*errors.errorString", "database is locked"⟩) ∧
      (Execute deleteFailsWorld (daysOptions 3)).submitted = []) :=
  ⟨⟨((setup_failure_aborts_before_dispatch tokenFailsWorld (daysOptions 3)).1 3 5 netError
        rfl rfl rfl).1,
      ((setup_failure_aborts_before_dispatch tokenFailsWorld (daysOptions 3)).1 3 5 netError
        rfl rfl rfl).2.1⟩,
    ⟨((setup_failure_aborts_before_dispatch deleteFailsWorld (daysOptions 3)).2.1 3 5
        "t-token" _ rfl rfl rfl rfl).1,
      ((setup_failure_aborts_before_dispatch deleteFailsWorld (daysOptions 3)).2.1 3 5
        "t-token" _ rfl rfl rfl rfl).2.1⟩⟩

/-- C6 (the code departs from the claim): with a rate of 0 per second the construction of
the scheduler fails, and `Execute` only logs it: it goes on to send progress values, to
request the access token and to delete the prior results, and ends in a nil dereference
at the first `Submit` instead of returning the error. -/
theorem scheduler_error_is_only_logged :
    NewWorkerScheduler zeroRateWorld.configError 10 0 = .error zeroRateWorld.configError ∧
    Execute zeroRateWorld (daysOptions 1) =
      ⟨[.logPrint "start feishu plugin execution", .logError "could not create scheduler",
          .progress 0, .getAccessToken, .progress (F32.const (1 / 10)), .dbDelete,
          .progress (F32.const (2 / 10)), .progress (F32.const (3 / 10)),
          .progress (progressValue false 0 1)],
        .panicked "runtime error: invalid memory address or nil pointer dereference"⟩ := by
  have hm : NewWorkerScheduler zeroRateWorld.configError 10 0 =
      .error zeroRateWorld.configError := by simp [NewWorkerScheduler]
  refine ⟨hm, ?_⟩
  have hN : intOfFloat64 1 = 1 := by decide
  have hopt : daysOptions 1 "numOfDaysToCollect" = some (.float64 1) := rfl
  have hrate : zeroRateWorld.GetRateLimitPerSecond (daysOptions 1) 5 = .ok 0 := rfl
  have htok : zeroRateWorld.GetAccessToken = .ok "t-token" := rfl
  have hdel : zeroRateWorld.DbDelete = none := rfl
  have hf : zeroRateWorld.fusedMulAdd = false := rfl
  unfold Execute
  simp only [hopt, hrate, htok, hdel, hm, hN, Run.after, Except.toOption, dispatch_nil, hf]
  simp [nilScheduler]

/-- C10 (the code departs from the claim): on the options of the standalone `main`,
where `numOfDaysToCollect` is the `int` 80, the type assertion to `float64` panics
before anything else is done, whatever the collaborators. -/
theorem main_options_panic (w : World) :
    Execute w mainOptions =
      ⟨[.logPrint "start feishu plugin execution"],
        .panicked "interface conversion: interface \x7b\x7d is int, not float64"⟩ := by
  have hopt : mainOptions "numOfDaysToCollect" = some (.int 80) := rfl
  unfold Execute
  simp only [hopt, Run.after, List.append_nil]
  rfl

/-- C2 (the claim fails): every setup step and the one `Submit` succeed, the body of the
submitted task returns an error, and `Execute` returns nil. -/
theorem task_error_is_not_returned :
    fetchFailsWorld.GetAccessToken = .ok "t-token" ∧ fetchFailsWorld.DbDelete = none ∧
    (∀ k, fetchFailsWorld.Submit k = none) ∧
    (Execute fetchFailsWorld (daysOptions 1)).submitted.map
      (fun t => (t.run fetchFailsWorld).2.isSome) = [true] ∧
    (Execute fetchFailsWorld (daysOptions 1)).outcome = .returned none := by
  refine ⟨rfl, rfl, fun _ => rfl, ?_, ?_⟩
  · rw [Execute_ok fetchFailsWorld (daysOptions 1) 1 5 "t-token" rfl rfl (by norm_num) rfl rfl
      (fun _ => rfl), okEvents_submitted]
    decide
  · rw [Execute_ok fetchFailsWorld (daysOptions 1) 1 5 "t-token" rfl rfl (by norm_num) rfl rfl
      (fun _ => rfl)]

/-- C2, amended: when the window count and the rate are read, the scheduler is built
(the rate is positive), and credential acquisition, the delete of prior results and every
`Submit` succeed, `Execute` waits for the scheduler, sends the final progress value 1 and
returns nil, whatever the task bodies return. -/
theorem returns_nil_after_wait (w : World) (o : Options) (x : ℚ) (r : Int) (tok : String)
    (hopt : o "numOfDaysToCollect" = some (.float64 x))
    (hrate : w.GetRateLimitPerSecond o 5 = .ok r) (hr : 0 < r)
    (htok : w.GetAccessToken = .ok tok) (hdel : w.DbDelete = none)
    (hsub : ∀ k, w.Submit k = none) :
    (Execute w o).outcome = .returned none ∧
      ∃ before, (Execute w o).events = before ++ [.waitUntilFinish, .progress 1] := by
  rw [Execute_ok w o x r tok hopt hrate hr htok hdel hsub]
  refine ⟨rfl, ?_⟩
  unfold okEvents
  exact ⟨_, (List.append_assoc _ _ _).symm⟩

/-- C2 amended, at a concrete run in which the only task fails. -/
theorem returns_nil_after_wait_witness :
    (Execute fetchFailsWorld (daysOptions 1)).outcome = .returned none :=
  (returns_nil_after_wait fetchFailsWorld (daysOptions 1) 1 5 "t-token" rfl rfl (by norm_num)
    rfl rfl (fun _ => rfl)).1

/-- C7 (the claim fails): the fetch of the only window fails with `netError`, and the
task returns another error value, made by `fmt.Errorf`. -/
theorem fetch_error_is_replaced :
    (∀ request token, fetchFailsWorld.Do request token = .error netError) ∧
    (Execute fetchFailsWorld (daysOptions 1)).submitted.map
        (fun t => (t.run fetchFailsWorld).2) =
      [some ⟨"*errors.errorString",
        "Current api req is 1699833600;%!(EXTRA *url.Error=connection refused)"⟩] ∧
    (Execute fetchFailsWorld (daysOptions 1)).submitted.map
        (fun t => (t.run fetchFailsWorld).2) ≠ [some netError] := by
  have h : (Execute fetchFailsWorld (daysOptions 1)).submitted.map
        (fun t => (t.run fetchFailsWorld).2) =
      [some ⟨"*errors.errorString",
        "Current api req is 1699833600;%!(EXTRA *url.Error=connection refused)"⟩] := by
    rw [Execute_ok fetchFailsWorld (daysOptions 1) 1 5 "t-token" rfl rfl (by norm_num) rfl rfl
      (fun _ => rfl), okEvents_submitted]
    decide
  refine ⟨fun _ _ => rfl, h, ?_⟩
  rw [h]
  decide

theorem fmtErrorf_ne (format : String) (e : GoError) : fmtErrorf format [e] ≠ e := by
  intro h
  have ht := congrArg (fun g => g.text.length) h
  simp [fmtErrorf, String.intercalate, String.intercalate.go] at ht
  have h9 : "%!(EXTRA ".length = 9 := rfl
  omega

/-- C7, amended: a task performs exactly one fetch.  If the fetch fails with `e`, the task
returns a new error made by `fmt.Errorf`, whose text starts with `Current api req is`,
the `start_time` parameter and a semicolon; it is not `e`.  If decoding fails with `e`,
or the save fails with `e`, the task returns `e` itself.  On decode success the records,
stamped with the captured start date, are saved in exactly one write, and otherwise
nothing is saved. -/
theorem task_error_values (w : World) (t : Task) :
    t.fetches w = 1 ∧
    (∀ e, w.Do (t.request w) t.tenantAccessToken = .error e →
      (t.run w).2 = some (fmtErrorf ("Current api req is " ++ t.params.Get "start_time" ++ ";")
        [e]) ∧
      (t.run w).2 ≠ some e ∧
      (∃ rest, (fmtErrorf ("Current api req is " ++ t.params.Get "start_time" ++ ";") [e]).text
        = "Current api req is " ++ t.params.Get "start_time" ++ ";" ++ rest) ∧
      t.saved w = []) ∧
    (∀ resp e, w.Do (t.request w) t.tenantAccessToken = .ok resp →
      w.Unmarshal resp = .error e → (t.run w).2 = some e ∧ t.saved w = []) ∧
    (∀ resp report, w.Do (t.request w) t.tenantAccessToken = .ok resp →
      w.Unmarshal resp = .ok report →
      t.saved w = [report.map fun item => { item with StartTime := t.tempStartDate }] ∧
      (t.run w).2 = w.DbSave (report.map fun item => { item with StartTime := t.tempStartDate })
      ∧ ∀ e, w.DbSave (report.map fun item => { item with StartTime := t.tempStartDate })
          = some e → (t.run w).2 = some e) := by
  refine ⟨?_, ?_, ?_, ?_⟩
  · unfold Task.fetches Task.run
    cases hd : w.Do (t.request w) t.tenantAccessToken with
    | error e => simp [hd]
    | ok resp =>
      cases hu : w.Unmarshal resp <;> simp [hd, hu]
  · intro e hd
    have hrun : (t.run w).2 =
        some (fmtErrorf ("Current api req is " ++ t.params.Get "start_time" ++ ";") [e]) := by
      unfold Task.run
      simp [hd]
    refine ⟨hrun, ?_, ?_, ?_⟩
    · rw [hrun]
      intro h
      exact fmtErrorf_ne _ e (Option.some.inj h)
    · exact ⟨"%!(EXTRA " ++ ", ".intercalate ([e].map fun a => a.typeName ++ "=" ++ a.text)
        ++ ")", by simp only [fmtErrorf, String.append_assoc]⟩
    · unfold Task.saved Task.run
      simp [hd]
  · intro resp e hd hu
    unfold Task.saved Task.run
    simp [hd, hu]
  · intro resp report hd hu
    have hrun : t.run w =
        ([.fetch (t.request w) t.tenantAccessToken,
            .save (report.map fun item => { item with StartTime := t.tempStartDate })],
          w.DbSave (report.map fun item => { item with StartTime := t.tempStartDate })) := by
      unfold Task.run
      simp only [hd, hu]
    refine ⟨?_, ?_, ?_⟩
    · unfold Task.saved
      rw [hrun]
      rfl
    · rw [hrun]
    · intro e he
      rw [hrun]
      exact he

/-- C7 amended, at concrete tasks: in the world where every fetch fails the task of
window 0 returns the `fmt.Errorf` value, and in the calm world it saves once. -/
theorem task_error_values_witness :
    (windowTask "t-token" UTC ⟨1699920000000000000⟩ 0).fetches fetchFailsWorld = 1 ∧
    ((windowTask "t-token" UTC ⟨1699920000000000000⟩ 0).run fetchFailsWorld).2 =
      some (fmtErrorf ("Current api req is " ++
        (windowTask "t-token" UTC ⟨1699920000000000000⟩ 0).params.Get "start_time" ++ ";")
        [netError]) ∧
    (windowTask "t-token" UTC ⟨1699920000000000000⟩ 0).saved calmWorld =
      [[⟨⟨1699747200000000000⟩, "user-1"⟩]] :=
  ⟨(task_error_values fetchFailsWorld (windowTask "t-token" UTC ⟨1699920000000000000⟩ 0)).1,
    ((task_error_values fetchFailsWorld (windowTask "t-token" UTC ⟨1699920000000000000⟩ 0)).2.1
      netError rfl).1,
    ((task_error_values calmWorld (windowTask "t-token" UTC ⟨1699920000000000000⟩ 0)).2.2.2
      "body" [⟨⟨0⟩, "user-1"⟩] rfl rfl).1.trans (by decide)⟩

end Feishu
